import Mathlib

/-!
Shallow embedding of the PeerDB Snowflake destination connector
(`flow/connectors/snowflake/snowflake.go`) for the CDC sync/normalize path,
together with proofs about the behaviour the specification attributes to it.

The destination database is modelled as an explicit state (`DestState`):
the `_PEERDB_INTERNAL.PEERDB_MIRROR_JOBS` metadata row for one flow job, the
append-only raw table, and the normalized destination tables.  Nondeterminism
of `uuid.New()` and `time.Now().UnixNano()` is made explicit by passing the
per-record uid and timestamp sources as function arguments.  `json.Marshal`
of a record's items is embedded as a concrete encoding function over an
ordered column/value list.
-/

namespace PeerDB

/-- Items of a record: ordered mapping from column name to (already rendered)
column value, the embedding of the Go `map[string]interface{}` items. -/
abbrev Items := List (String × String)

/-- Embedding of `json.Marshal` on record items: renders the ordered
column/value pairs as a JSON object string. -/
def jsonMarshal (items : Items) : String :=
  "\x7b" ++ String.intercalate "," (items.map fun kv => "\"" ++ kv.1 ++ "\":" ++ kv.2) ++ "\x7d"

/-- CDC records (`model.InsertRecord` / `model.UpdateRecord` /
`model.DeleteRecord`); every record carries its WAL checkpoint
(`GetCheckPointID`). -/
inductive Record where
  | insertRecord (destinationTableName : String) (items : Items) (checkPointID : Int)
  | updateRecord (destinationTableName : String) (oldItems : Items) (newItems : Items)
      (checkPointID : Int)
  | deleteRecord (destinationTableName : String) (items : Items) (checkPointID : Int)
  deriving DecidableEq, Repr

/-- The checkpoint carried by a record (`record.GetCheckPointID()`). -/
def Record.checkPointID : Record → Int
  | .insertRecord _ _ cp => cp
  | .updateRecord _ _ _ cp => cp
  | .deleteRecord _ _ cp => cp

/-- Embedding of `model.SyncRecordsRequest` (the fields the Snowflake
connector reads: the record batch and its `LastCheckPointID`). -/
structure SyncRecordsRequest where
  records : List Record
  lastCheckPointID : Int
  deriving DecidableEq, Repr

/-- Embedding of `model.SyncResponse`.  Fields not assigned by the Snowflake
connector keep their Go zero values (`0` / nil). -/
structure SyncResponse where
  firstSyncedCheckPointID : Int
  lastSyncedCheckPointID : Int
  numRecordsSynced : Int
  currentSyncBatchID : Int
  tableNameRowsMapping : Option (List (String × Int))
  deriving DecidableEq, Repr

/-- Embedding of `model.NormalizeResponse`; unassigned fields are Go zero
values. -/
structure NormalizeResponse where
  done : Bool
  startBatchID : Int
  endBatchID : Int
  deriving DecidableEq, Repr

/-- A row of the raw table, mirroring `snowflakeRawRecord` / the raw-table
columns `(_PEERDB_UID, _PEERDB_TIMESTAMP, _PEERDB_DESTINATION_TABLE_NAME,
_PEERDB_DATA, _PEERDB_RECORD_TYPE, _PEERDB_MATCH_DATA, _PEERDB_BATCH_ID)`. -/
structure SnowflakeRawRecord where
  uid : String
  timestamp : Int
  destinationTableName : String
  data : String
  recordType : Int
  matchData : String
  batchID : Int
  deriving DecidableEq, Repr

/-- The `PEERDB_MIRROR_JOBS` metadata row for the job:
`(OFFSET, SYNC_BATCH_ID, NORMALIZE_BATCH_ID)`. -/
structure JobMetadata where
  offset : Int
  syncBatchID : Int
  normalizeBatchID : Int
  deriving DecidableEq, Repr

/-- Destination-database state for a single flow job: the metadata row (or
`none` when no row exists), the raw table rows in insertion order, and the
normalized tables (destination table name → primary-key value → row payload,
where the payload stands for the flattened columns cast from `_PEERDB_DATA`). -/
structure DestState where
  mirrorJobs : Option JobMetadata
  rawTable : List SnowflakeRawRecord
  tables : String → String → Option String

/-- `GetLastSyncBatchID`: `SYNC_BATCH_ID` of the metadata row, `0` when no
row exists for the job. -/
def getLastSyncBatchID (s : DestState) : Int :=
  match s.mirrorJobs with
  | none => 0
  | some m => m.syncBatchID

/-- `GetLastNormalizeBatchID`: `NORMALIZE_BATCH_ID` of the metadata row, `0`
when no row exists for the job. -/
def getLastNormalizeBatchID (s : DestState) : Int :=
  match s.mirrorJobs with
  | none => 0
  | some m => m.normalizeBatchID

/-- `GetLastOffset`: `none` when no metadata row exists, `none` when the
stored offset is `0` (read as "no sync has happened"), otherwise the stored
offset as the checkpoint of the returned `LastSyncState`. -/
def getLastOffset (s : DestState) : Option Int :=
  match s.mirrorJobs with
  | none => none
  | some m => if m.offset = 0 then none else some m.offset

/-- `jobMetadataExists`: whether a `PEERDB_MIRROR_JOBS` row exists for the
job. -/
def jobMetadataExists (s : DestState) : Bool :=
  s.mirrorJobs.isSome

/-- The switch of `SyncRecords` mapping one CDC record to one raw-table row:
record type `0`/`1`/`2` for insert/update/delete, `data` the JSON of the
new (update) or current (insert/delete) items, `match_data` the JSON of the
old items for updates, the current items for deletes and `""` for inserts. -/
def Record.toRawRecord (uid : String) (timestamp : Int) (syncBatchID : Int) :
    Record → SnowflakeRawRecord
  | .insertRecord t items _ =>
      ⟨uid, timestamp, t, jsonMarshal items, 0, "", syncBatchID⟩
  | .updateRecord t oldItems newItems _ =>
      ⟨uid, timestamp, t, jsonMarshal newItems, 1, jsonMarshal oldItems, syncBatchID⟩
  | .deleteRecord t items _ =>
      ⟨uid, timestamp, t, jsonMarshal items, 2, jsonMarshal items, syncBatchID⟩

/-- `updateSyncMetadata`'s effect on the metadata row: insert
`(job, lastCP, syncBatchID, 0)` when no row exists, else
`UPDATE OFFSET=lastCP, SYNC_BATCH_ID=syncBatchID`. -/
def updateSyncMetadata (lastCP : Int) (syncBatchID : Int) :
    Option JobMetadata → JobMetadata
  | none => ⟨lastCP, syncBatchID, 0⟩
  | some m => { m with offset := lastCP, syncBatchID := syncBatchID }

/-- `SyncRecords`: reserve `syncBatchID = GetLastSyncBatchID + 1`, map each
record to a raw row (uids and timestamps drawn from the given sources by
record position), return the zero response on an empty batch, otherwise
append the rows to the raw table and upsert the metadata row in one
transaction and answer with the first/last checkpoints and the row count. -/
def SyncRecords (s : DestState) (req : SyncRecordsRequest)
    (uids : Nat → String) (times : Nat → Int) : DestState × SyncResponse :=
  let syncBatchID := getLastSyncBatchID s + 1
  let records := req.records.mapIdx fun i r => r.toRawRecord (uids i) (times i) syncBatchID
  let firstCP : Int :=
    match req.records with
    | [] => 0
    | r :: _ => r.checkPointID
  let lastCP := req.lastCheckPointID
  if records.isEmpty then
    (s, ⟨0, 0, 0, 0, none⟩)
  else
    ({ s with
        rawTable := s.rawTable ++ records,
        mirrorJobs := some (updateSyncMetadata lastCP syncBatchID s.mirrorJobs) },
     ⟨firstCP, lastCP, records.length, 0, none⟩)

/-- Raw rows in the batch window
`_PEERDB_BATCH_ID > normalizeBatchID AND _PEERDB_BATCH_ID <= syncBatchID`. -/
def rawRecordsInBatchWindow (s : DestState) (syncBatchID normalizeBatchID : Int) :
    List SnowflakeRawRecord :=
  s.rawTable.filter fun r =>
    decide (normalizeBatchID < r.batchID) && decide (r.batchID ≤ syncBatchID)

/-- `getDistinctTableNamesInBatch`: the distinct
`_PEERDB_DESTINATION_TABLE_NAME` values among the raw rows of the batch
window. -/
def getDistinctTableNamesInBatch (s : DestState) (syncBatchID normalizeBatchID : Int) :
    List String :=
  ((rawRecordsInBatchWindow s syncBatchID normalizeBatchID).map
    (·.destinationTableName)).dedup

/-- The rows feeding one table's MERGE: the batch window restricted by
`_PEERDB_DESTINATION_TABLE_NAME = ?` (bound to the destination table). -/
def mergeSourceRows (s : DestState) (destTable : String)
    (syncBatchID normalizeBatchID : Int) : List SnowflakeRawRecord :=
  (rawRecordsInBatchWindow s syncBatchID normalizeBatchID).filter fun r =>
    r.destinationTableName == destTable

/-- The `DEDUPLICATED_FLATTENED` CTE:
`RANK() OVER (PARTITION BY pk ORDER BY _PEERDB_TIMESTAMP DESC) = 1`, i.e. a
row survives iff no row of the same primary-key partition has a strictly
greater timestamp.  There is no tiebreaker: all rows tied at the maximal
timestamp of their partition have rank 1 and survive.  `pk` extracts the
primary-key value from the `_PEERDB_DATA` payload. -/
def deduplicatedRows (pk : String → String) (rows : List SnowflakeRawRecord) :
    List SnowflakeRawRecord :=
  rows.filter fun r =>
    rows.all fun r2 => (pk r2.data != pk r.data) || decide (r2.timestamp ≤ r.timestamp)

/-- One source row's effect in the MERGE, keyed by the row's value of the
join column: the `ON` clause of `mergeStatementSQL` is the hardcoded
`TARGET.ID=SOURCE.ID`, so a source row matches the target row holding the
same value in the literal column `ID` — not the table's primary-key column.
The branches are
`WHEN NOT MATCHED AND record_type != 2 THEN INSERT`,
`WHEN MATCHED AND record_type != 2 THEN UPDATE` (all columns),
`WHEN MATCHED AND record_type = 2 THEN DELETE`.
`idVal` is the row's flattened `ID`-column value (`CAST(VAR_COLS:id …)`). -/
def applyMergeRow (idOf : String → String) (table : String → Option String)
    (r : SnowflakeRawRecord) : String → Option String :=
  let key := idOf r.data
  match table key with
  | some _ =>
      if r.recordType = 2 then
        fun k => if k = key then none else table k
      else
        fun k => if k = key then some r.data else table k
  | none =>
      if r.recordType ≠ 2 then
        fun k => if k = key then some r.data else table k
      else
        table

/-- The MERGE of source rows into one destination table, joined on the
`ID` column value.  This sequential fold only coincides with the SQL MERGE
when the source rows carry pairwise distinct join-key values; `executeMergeStatement`
guards exactly that. -/
def mergeForTable (idOf : String → String) (table : String → Option String)
    (sourceRows : List SnowflakeRawRecord) : String → Option String :=
  sourceRows.foldl (applyMergeRow idOf) table

/-- The state change of one table's MERGE when it succeeds: the
rank-1-deduplicated batch-window rows of the table (partitioned by the
primary key, `pkOf`) merged into it on the `ID` join column (`idOf`). -/
def applyMergeToTable (idOf pkOf : String → String → String) (s : DestState)
    (destTable : String) (syncBatchID normalizeBatchID : Int) : DestState :=
  let sourceRows :=
    deduplicatedRows (pkOf destTable) (mergeSourceRows s destTable syncBatchID normalizeBatchID)
  { s with
      tables := fun t =>
        if t = destTable then mergeForTable (idOf destTable) (s.tables destTable) sourceRows
        else s.tables t }

/-- Pairwise distinctness of a key list. -/
def nodupKeys : List String → Bool
  | [] => true
  | k :: ks => !ks.contains k && nodupKeys ks

/-- Whether the rank-1 source rows of one table's MERGE carry pairwise
distinct join-key (`ID`-column) values.  When they do not, the SQL MERGE has
no single-row-per-key outcome: duplicates hitting a matched target row raise
Snowflake's nondeterministic-merge error, and duplicate not-matched rows
insert several target rows with the same `ID`, which this keyed table model
cannot represent. -/
def mergeKeysDistinct (idOf pkOf : String → String → String) (s : DestState)
    (destTable : String) (syncBatchID normalizeBatchID : Int) : Bool :=
  nodupKeys
    ((deduplicatedRows (pkOf destTable)
        (mergeSourceRows s destTable syncBatchID normalizeBatchID)).map
      fun x => idOf destTable x.data)

/-- `generateAndExecuteMergeStatement` for one destination table: MERGE the
rank-1-deduplicated batch-window rows of the table into it, joining target
and source on the hardcoded `ID` column.  `pkOf` gives, per destination
table, the primary-key extraction from the data payload (used only in the
`PARTITION BY` of the rank step); `idOf` gives the `ID`-column extraction
(the join key of the `ON TARGET.ID=SOURCE.ID` clause).  When the rank-1
rows carry duplicate join keys the statement does not produce a
single-row-per-key result and the execution errors; no theorem in this file
relies on which duplicate outcome Snowflake picks. -/
def executeMergeStatement (idOf pkOf : String → String → String) (s : DestState)
    (destTable : String) (syncBatchID normalizeBatchID : Int) :
    Except Unit DestState :=
  if mergeKeysDistinct idOf pkOf s destTable syncBatchID normalizeBatchID then
    .ok (applyMergeToTable idOf pkOf s destTable syncBatchID normalizeBatchID)
  else
    .error ()

/-- `updateNormalizeMetadata`: `UPDATE NORMALIZE_BATCH_ID = ?` on the
metadata row. -/
def updateNormalizeMetadata (normalizeBatchID : Int) (m : JobMetadata) : JobMetadata :=
  { m with normalizeBatchID := normalizeBatchID }

/-- `NormalizeRecords`: read the sync and normalize batch ids; if they are
equal, or if no metadata row exists, return `Done` without touching the
destination; otherwise MERGE every distinct destination table of the batch
window and set `NORMALIZE_BATCH_ID` to the sync batch id read in this run,
all in one transaction.  If any MERGE errors, the deferred rollback undoes
the whole transaction and the call returns the error with the destination
state unchanged. -/
def NormalizeRecords (idOf pkOf : String → String → String) (s : DestState) :
    DestState × Except Unit NormalizeResponse :=
  let syncBatchID := getLastSyncBatchID s
  let normalizeBatchID := getLastNormalizeBatchID s
  if syncBatchID = normalizeBatchID then
    (s, .ok ⟨true, 0, 0⟩)
  else if !jobMetadataExists s then
    (s, .ok ⟨true, 0, 0⟩)
  else
    let destinationTableNames := getDistinctTableNamesInBatch s syncBatchID normalizeBatchID
    match destinationTableNames.foldlM
      (fun st destTable => executeMergeStatement idOf pkOf st destTable
        syncBatchID normalizeBatchID) s with
    | .error e => (s, .error e)
    | .ok s1 =>
      let s2 := { s1 with mirrorJobs := s1.mirrorJobs.map (updateNormalizeMetadata syncBatchID) }
      (s2, .ok ⟨true, normalizeBatchID + 1, syncBatchID⟩)

/-! Sample inputs used by witnesses and counterexamples. -/

/-- An empty destination-database state: no metadata row, empty raw table,
empty normalized tables. -/
def emptyState : DestState :=
  { mirrorJobs := none, rawTable := [], tables := fun _ _ => none }

/-- A constant uid source for concrete runs. -/
def uids0 : Nat → String := fun i => "uid-" ++ toString i

/-- A constant timestamp source for concrete runs. -/
def times0 : Nat → Int := fun i => (i : Int)

/-- C10.  Called with a record batch containing zero records, `SyncRecords`
returns first checkpoint `0`, last checkpoint `0` and zero rows synced, and
leaves the destination state (raw table and `mirror_jobs` metadata row)
unchanged. -/
theorem syncRecords_empty_batch_is_noop (s : DestState) (lastCP : Int)
    (uids : Nat → String) (times : Nat → Int) :
    SyncRecords s ⟨[], lastCP⟩ uids times = (s, ⟨0, 0, 0, 0, none⟩) := by
  rfl

/-- C8.  `GetLastOffset` returns no sync state exactly when no `mirror_jobs`
row exists or the stored offset equals `0`; for every stored offset greater
than `0` it returns that offset as the checkpoint. -/
theorem getLastOffset_none_iff (s : DestState) :
    (getLastOffset s = none ↔
      s.mirrorJobs = none ∨ ∃ m, s.mirrorJobs = some m ∧ m.offset = 0) ∧
    (∀ m, s.mirrorJobs = some m → 0 < m.offset → getLastOffset s = some m.offset) := by
  constructor
  · unfold getLastOffset
    cases h : s.mirrorJobs with
    | none => simp
    | some m =>
      by_cases hz : m.offset = 0 <;> simp [hz]
  · intro m hm hpos
    unfold getLastOffset
    rw [hm]
    simp [ne_of_gt hpos]

/-- Witness for C8 at a concrete state with stored offset `7`. -/
theorem getLastOffset_none_iff_witness :
    getLastOffset { mirrorJobs := some ⟨7, 2, 1⟩, rawTable := [], tables := fun _ _ => none } =
      some 7 :=
  (getLastOffset_none_iff _).2 ⟨7, 2, 1⟩ rfl (by decide)

/-- C9.  When no `mirror_jobs` metadata row exists for the job (so both
batch ids read as `0`), `NormalizeRecords` returns `Done = true` without
executing any MERGE and without writing any destination state. -/
theorem normalizeRecords_no_metadata_noop (idOf pkOf : String → String → String)
    (s : DestState) (h : s.mirrorJobs = none) :
    NormalizeRecords idOf pkOf s = (s, .ok ⟨true, 0, 0⟩) := by
  unfold NormalizeRecords getLastSyncBatchID getLastNormalizeBatchID
  rw [h]
  simp

/-- Witness for C9: the empty state has no metadata row and `NormalizeRecords`
leaves it untouched. -/
theorem normalizeRecords_no_metadata_noop_witness :
    NormalizeRecords (fun _ d => d) (fun _ d => d) emptyState =
      (emptyState, .ok ⟨true, 0, 0⟩) :=
  normalizeRecords_no_metadata_noop (fun _ d => d) (fun _ d => d) emptyState rfl

/-- C6.  `SyncRecords` maps each input record to exactly one raw-table row,
in order: record type `0` for inserts (`match_data` empty), `1` for updates
(`data` the JSON of the new items, `match_data` the JSON of the old items),
`2` for deletes (`data` and `match_data` the JSON of the current items), and
every row produced by the call carries batch id `GetLastSyncBatchID + 1`. -/
theorem syncRecords_raw_row_mapping (s : DestState) (req : SyncRecordsRequest)
    (uids : Nat → String) (times : Nat → Int) :
    (SyncRecords s req uids times).1.rawTable =
      s.rawTable ++ req.records.mapIdx (fun i rec =>
        match rec with
        | .insertRecord t items _ =>
            ⟨uids i, times i, t, jsonMarshal items, 0, "", getLastSyncBatchID s + 1⟩
        | .updateRecord t oldItems newItems _ =>
            ⟨uids i, times i, t, jsonMarshal newItems, 1, jsonMarshal oldItems,
              getLastSyncBatchID s + 1⟩
        | .deleteRecord t items _ =>
            ⟨uids i, times i, t, jsonMarshal items, 2, jsonMarshal items,
              getLastSyncBatchID s + 1⟩) ∧
    ((SyncRecords s req uids times).1.rawTable.drop s.rawTable.length).all
      (fun row => row.batchID == getLastSyncBatchID s + 1) = true := by
  have hfun : (fun (i : Nat) (r : Record) =>
      r.toRawRecord (uids i) (times i) (getLastSyncBatchID s + 1)) =
      fun (i : Nat) (rec : Record) =>
        match rec with
        | .insertRecord t items _ =>
            (⟨uids i, times i, t, jsonMarshal items, 0, "", getLastSyncBatchID s + 1⟩ :
              SnowflakeRawRecord)
        | .updateRecord t oldItems newItems _ =>
            ⟨uids i, times i, t, jsonMarshal newItems, 1, jsonMarshal oldItems,
              getLastSyncBatchID s + 1⟩
        | .deleteRecord t items _ =>
            ⟨uids i, times i, t, jsonMarshal items, 2, jsonMarshal items,
              getLastSyncBatchID s + 1⟩ := by
    funext i rec
    cases rec <;> rfl
  have hbatch : ∀ (rows : List Record),
      (rows.mapIdx fun i r => r.toRawRecord (uids i) (times i) (getLastSyncBatchID s + 1)).all
        (fun row => row.batchID == getLastSyncBatchID s + 1) = true := by
    intro rows
    rw [List.all_eq_true]
    intro row hrow
    obtain ⟨i, hi, hr⟩ := List.exists_of_mem_mapIdx hrow
    cases hrec : rows[i] <;> rw [← hr, hrec] <;> simp [Record.toRawRecord]
  unfold SyncRecords
  by_cases hempty : (req.records.mapIdx fun i r =>
      r.toRawRecord (uids i) (times i) (getLastSyncBatchID s + 1)).isEmpty = true
  · rw [List.isEmpty_iff] at hempty
    simp [hempty, ← hfun]
  · simp only [hempty, if_false, Bool.false_eq_true]
    refine ⟨by rw [← hfun], ?_⟩
    rw [List.drop_left]
    exact hbatch req.records

/-- Concrete input used by the C7 counterexample: a one-record batch synced
into the empty state, so the connector reserves sync batch id `1`. -/
def oneInsertRequest : SyncRecordsRequest :=
  ⟨[.insertRecord "PUBLIC.T1" [("id", "1"), ("v", "\"a\"")] 42], 42⟩

/-- C7 counterexample.  On a successful non-empty `SyncRecords` call the
Snowflake connector commits sync batch id `1` (from the empty state), but the
returned response leaves `CurrentSyncBatchID` at its Go zero value `0` and
`TableNameRowsMapping` unset (`nil`): the response does not contain the sync
batch id used by the call nor the per-table row-count mapping. -/
theorem syncRecords_response_missing_fields :
    (SyncRecords emptyState oneInsertRequest uids0 times0).2.currentSyncBatchID = 0 ∧
    (SyncRecords emptyState oneInsertRequest uids0 times0).2.tableNameRowsMapping = none ∧
    getLastSyncBatchID (SyncRecords emptyState oneInsertRequest uids0 times0).1 = 1 :=
  ⟨rfl, rfl, rfl⟩

/-- C7 amended.  On success with a non-empty record batch, the `SyncRecords`
response carries the first checkpoint of the batch, the request's last
checkpoint and the number of rows synced, while the current-sync-batch-id
field stays `0` and the per-table row-count mapping stays unset. -/
theorem syncRecords_response_fields (s : DestState) (r : Record) (rest : List Record)
    (lastCP : Int) (uids : Nat → String) (times : Nat → Int) :
    (SyncRecords s ⟨r :: rest, lastCP⟩ uids times).2 =
      ⟨r.checkPointID, lastCP, (rest.length : Int) + 1, 0, none⟩ := by
  unfold SyncRecords
  simp [List.mapIdx_cons, Record.checkPointID]

/-! Failure-injected `SyncRecords`.  All destination writes of the call
happen inside one transaction; the transaction is modelled by a pending-write
buffer that is applied to the durable state only at commit, and discarded on
the rollback that every error path performs. -/

/-- Failure injection for one `SyncRecords` call: the chunked raw-table
INSERT may fail at a given chunk, the metadata upsert may fail, or the
commit itself may fail. -/
structure SyncFailure where
  failInsertChunk : Option Nat
  failMetadataUpdate : Bool
  failCommit : Bool
  deriving DecidableEq, Repr

/-- The run with no injected failure. -/
def noFailure : SyncFailure := ⟨none, false, false⟩

/-- `syncRecordsChunkSize = 1024`. -/
def syncRecordsChunkSize : Nat := 1024

/-- The chunked raw-table INSERT loop of `SyncRecords` (chunks of
`syncRecordsChunkSize`, i.e. `records[begin:end]` for
`begin = 0, 1024, 2048, …`), building the transaction-pending rows and
erroring at the injected failing chunk. -/
def insertRecordsInRawTableChunks (fail : SyncFailure)
    (records : List SnowflakeRawRecord) : Except Unit (List SnowflakeRawRecord) :=
  let numChunks := (records.length + syncRecordsChunkSize - 1) / syncRecordsChunkSize
  (List.range numChunks).foldlM
    (fun pending i =>
      if fail.failInsertChunk = some i then .error ()
      else .ok (pending ++ (records.drop (i * syncRecordsChunkSize)).take syncRecordsChunkSize))
    []

/-- The body of the `SyncRecords` transaction: the chunked raw-table insert
followed by the metadata upsert, each of which may fail, and finally the
commit, which may also fail.  On success it yields the pending writes of the
transaction. -/
def syncTxBody (fail : SyncFailure) (records : List SnowflakeRawRecord)
    (lastCP syncBatchID : Int) (mj : Option JobMetadata) :
    Except Unit (List SnowflakeRawRecord × JobMetadata) :=
  match insertRecordsInRawTableChunks fail records with
  | .error e => .error e
  | .ok pendingRows =>
    if fail.failMetadataUpdate then
      .error ()
    else
      let pendingMetadata := updateSyncMetadata lastCP syncBatchID mj
      if fail.failCommit then
        .error ()
      else
        .ok (pendingRows, pendingMetadata)

/-- Apply the outcome of a `SyncRecords` transaction to the durable state:
on commit the pending raw rows and metadata become durable; on error the
rollback discards them and the durable state is unchanged. -/
def syncCommitOrRollback (s : DestState) (firstCP lastCP numRows : Int)
    (txr : Except Unit (List SnowflakeRawRecord × JobMetadata)) :
    DestState × Except Unit SyncResponse :=
  match txr with
  | .error e => (s, .error e)
  | .ok (pendingRows, pendingMetadata) =>
      ({ s with
          rawTable := s.rawTable ++ pendingRows,
          mirrorJobs := some pendingMetadata },
       .ok ⟨firstCP, lastCP, numRows, 0, none⟩)

/-- `SyncRecords` with failure injection: identical to `SyncRecords` except
that the raw-table insert, the metadata upsert or the commit may fail, in
which case the transaction is rolled back and the call returns the error. -/
def SyncRecordsWithFailure (fail : SyncFailure) (s : DestState)
    (req : SyncRecordsRequest) (uids : Nat → String) (times : Nat → Int) :
    DestState × Except Unit SyncResponse :=
  let syncBatchID := getLastSyncBatchID s + 1
  let records := req.records.mapIdx fun i r => r.toRawRecord (uids i) (times i) syncBatchID
  let firstCP : Int :=
    match req.records with
    | [] => 0
    | r :: _ => r.checkPointID
  let lastCP := req.lastCheckPointID
  if records.isEmpty then
    (s, .ok ⟨0, 0, 0, 0, none⟩)
  else
    syncCommitOrRollback s firstCP lastCP records.length
      (syncTxBody fail records lastCP syncBatchID s.mirrorJobs)

/-- A transaction outcome that surfaces an error leaves the durable state
untouched. -/
theorem syncCommitOrRollback_error (s : DestState) (firstCP lastCP numRows : Int)
    (txr : Except Unit (List SnowflakeRawRecord × JobMetadata))
    (h : (syncCommitOrRollback s firstCP lastCP numRows txr).2 = .error ()) :
    (syncCommitOrRollback s firstCP lastCP numRows txr).1 = s := by
  rcases txr with e | ⟨pendingRows, pendingMetadata⟩
  · rfl
  · exact absurd h (by simp [syncCommitOrRollback])

/-- Splitting a take at a chunk boundary. -/
theorem take_add_split {α : Type} (l : List α) (m n : Nat) :
    l.take (m + n) = l.take m ++ (l.drop m).take n := by
  calc l.take (m + n)
      = (l.take (m + n)).take m ++ (l.take (m + n)).drop m :=
        (List.take_append_drop _ _).symm
    _ = l.take m ++ (l.drop m).take n := by
        rw [List.take_take, min_eq_left (Nat.le_add_right m n), ← List.take_drop]

/-- Concatenating the first `k` chunks of size `c` of a list yields its
first `k * c` elements. -/
theorem chunks_join {α : Type} (l : List α) (c : Nat) (k : Nat) :
    (List.range k).foldl (fun acc i => acc ++ (l.drop (i * c)).take c) [] =
      l.take (k * c) := by
  induction k with
  | zero => simp
  | succ k ih =>
    rw [List.range_succ, List.foldl_append, ih, List.foldl_cons, List.foldl_nil,
      Nat.succ_mul, take_add_split]

/-- A `foldlM` over `Except` whose body never errors is the `foldl` of the
body. -/
theorem foldlM_ok {ι β : Type} (g : β → ι → β) (l : List ι) (init : β) :
    (l.foldlM (fun acc i => (Except.ok (g acc i) : Except Unit β)) init) =
      .ok (l.foldl g init) := by
  induction l generalizing init with
  | nil => rfl
  | cons a as ih => rw [List.foldlM_cons, List.foldl_cons]; exact ih (g init a)

/-- Without failure injection the chunked insert loop accumulates exactly
the input rows. -/
theorem insertRecordsInRawTableChunks_noFailure (records : List SnowflakeRawRecord) :
    insertRecordsInRawTableChunks noFailure records = .ok records := by
  unfold insertRecordsInRawTableChunks
  have hbody : (fun (pending : List SnowflakeRawRecord) (i : Nat) =>
      if noFailure.failInsertChunk = some i then (.error () : Except Unit _)
      else .ok (pending ++ (records.drop (i * syncRecordsChunkSize)).take syncRecordsChunkSize)) =
      fun pending i =>
        .ok (pending ++ (records.drop (i * syncRecordsChunkSize)).take syncRecordsChunkSize) := by
    funext pending i
    simp [noFailure]
  rw [hbody, foldlM_ok, chunks_join]
  congr 1
  apply List.take_of_length_le
  have hd := Nat.div_add_mod (records.length + syncRecordsChunkSize - 1) syncRecordsChunkSize
  have hm : (records.length + syncRecordsChunkSize - 1) % syncRecordsChunkSize <
      syncRecordsChunkSize := Nat.mod_lt _ (by decide)
  unfold syncRecordsChunkSize at hd hm ⊢
  omega

/-- With no injected failure, the failure-instrumented `SyncRecords`
coincides with `SyncRecords`, wrapped in a successful result. -/
theorem syncRecordsWithFailure_noFailure (s : DestState) (req : SyncRecordsRequest)
    (uids : Nat → String) (times : Nat → Int) :
    SyncRecordsWithFailure noFailure s req uids times =
      ((SyncRecords s req uids times).1, .ok (SyncRecords s req uids times).2) := by
  unfold SyncRecordsWithFailure SyncRecords
  by_cases he : (req.records.mapIdx fun i r =>
      r.toRawRecord (uids i) (times i) (getLastSyncBatchID s + 1)).isEmpty = true
  · simp [he]
  · simp only [he, Bool.false_eq_true, if_false]
    unfold syncTxBody
    rw [insertRecordsInRawTableChunks_noFailure]
    simp [noFailure, syncCommitOrRollback]

/-- Every error path of a `SyncRecords` transaction returns the durable
state unchanged: the rollback discards all pending writes. -/
theorem syncRecordsWithFailure_error_state (fail : SyncFailure) (s : DestState)
    (req : SyncRecordsRequest) (uids : Nat → String) (times : Nat → Int)
    (h : (SyncRecordsWithFailure fail s req uids times).2 = .error ()) :
    (SyncRecordsWithFailure fail s req uids times).1 = s := by
  unfold SyncRecordsWithFailure at h ⊢
  by_cases he : (req.records.mapIdx fun i r =>
      r.toRawRecord (uids i) (times i) (getLastSyncBatchID s + 1)).isEmpty = true
  · simp only [he, if_true] at h
    simp at h
  · simp only [he, Bool.false_eq_true, if_false] at h ⊢
    exact syncCommitOrRollback_error _ _ _ _ _ h

/-- C5.  If `SyncRecords` fails after beginning its transaction (raw-table
insert, metadata upsert or commit fails), it returns an error and the
destination state is unchanged: no raw rows of the call are durable and the
metadata row keeps its previous offset and sync batch id; retrying the
entire call from the returned state therefore behaves exactly like the
original call, because the `syncBatchID` reservation was never durable. -/
theorem syncRecords_failure_rollback_and_retry (fail : SyncFailure) (s : DestState)
    (req : SyncRecordsRequest) (uids : Nat → String) (times : Nat → Int)
    (h : (SyncRecordsWithFailure fail s req uids times).2 = .error ()) :
    (SyncRecordsWithFailure fail s req uids times).1 = s ∧
    SyncRecordsWithFailure noFailure (SyncRecordsWithFailure fail s req uids times).1
        req uids times =
      SyncRecordsWithFailure noFailure s req uids times := by
  have hstate := syncRecordsWithFailure_error_state fail s req uids times h
  exact ⟨hstate, by rw [hstate]⟩

/-- Witness for C5: a concrete call into the empty state whose metadata
upsert fails; the call errors and the state is unchanged. -/
theorem syncRecords_failure_rollback_and_retry_witness :
    (SyncRecordsWithFailure ⟨none, true, false⟩ emptyState oneInsertRequest uids0 times0).1 =
      emptyState ∧
    SyncRecordsWithFailure noFailure
        (SyncRecordsWithFailure ⟨none, true, false⟩ emptyState oneInsertRequest uids0 times0).1
        oneInsertRequest uids0 times0 =
      SyncRecordsWithFailure noFailure emptyState oneInsertRequest uids0 times0 :=
  syncRecords_failure_rollback_and_retry ⟨none, true, false⟩ emptyState oneInsertRequest
    uids0 times0 rfl

/-! Sequences of destination operations, for the metadata invariants. -/

/-- One `SyncRecords` call: its request and its uid/timestamp sources. -/
structure SyncCall where
  req : SyncRecordsRequest
  uids : Nat → String
  times : Nat → Int

/-- The state transition of one successful `SyncRecords` call. -/
def syncStep (s : DestState) (c : SyncCall) : DestState :=
  (SyncRecords s c.req c.uids c.times).1

/-- A sequence of successful `SyncRecords` calls. -/
def runSyncCalls (s : DestState) (calls : List SyncCall) : DestState :=
  calls.foldl syncStep s

/-- A destination-connector operation that writes the metadata row. -/
inductive DestOp where
  | syncOp (c : SyncCall)
  | normalizeOp (idOf pkOf : String → String → String)

/-- The state transition of one destination operation. -/
def applyOp (s : DestState) : DestOp → DestState
  | .syncOp c => syncStep s c
  | .normalizeOp idOf pkOf => (NormalizeRecords idOf pkOf s).1

/-- The metadata invariant: whenever a `mirror_jobs` row exists,
`NORMALIZE_BATCH_ID ≤ SYNC_BATCH_ID`. -/
def MetadataInv (s : DestState) : Prop :=
  ∀ m, s.mirrorJobs = some m → m.normalizeBatchID ≤ m.syncBatchID

/-- The metadata row written by the upsert carries the requested sync batch
id. -/
theorem updateSyncMetadata_syncBatchID (lastCP syncBatchID : Int)
    (mj : Option JobMetadata) :
    (updateSyncMetadata lastCP syncBatchID mj).syncBatchID = syncBatchID := by
  cases mj <;> rfl

/-- The metadata row written by the upsert carries the request's last
checkpoint as offset. -/
theorem updateSyncMetadata_offset (lastCP syncBatchID : Int)
    (mj : Option JobMetadata) :
    (updateSyncMetadata lastCP syncBatchID mj).offset = lastCP := by
  cases mj <;> rfl

/-- A non-empty `SyncRecords` call advances the stored sync batch id by
exactly one. -/
theorem getLastSyncBatchID_syncStep (s : DestState) (c : SyncCall)
    (h : c.req.records ≠ []) :
    getLastSyncBatchID (syncStep s c) = getLastSyncBatchID s + 1 := by
  unfold syncStep SyncRecords
  have hne : (c.req.records.mapIdx fun i r =>
      r.toRawRecord (c.uids i) (c.times i) (getLastSyncBatchID s + 1)).isEmpty = false := by
    rw [List.isEmpty_eq_false_iff_exists_mem]
    obtain ⟨r, rest, hr⟩ := List.exists_cons_of_ne_nil h
    exact ⟨r.toRawRecord (c.uids 0) (c.times 0) (getLastSyncBatchID s + 1),
      by rw [hr, List.mapIdx_cons]; exact List.mem_cons_self _ _⟩
  simp only [hne, Bool.false_eq_true, if_false]
  simp [getLastSyncBatchID, updateSyncMetadata_syncBatchID]

/-- Concrete calls used by the C3 counterexample: checkpoints regress from
`5` to `3`, and an empty batch makes a successful call that commits
nothing. -/
def callA : SyncCall :=
  ⟨⟨[.insertRecord "PUBLIC.T1" [("id", "1")] 5], 5⟩, uids0, times0⟩

/-- Second concrete call, with a smaller checkpoint than `callA`. -/
def callB : SyncCall :=
  ⟨⟨[.updateRecord "PUBLIC.T1" [("id", "1")] [("id", "1"), ("v", "2")] 3], 3⟩, uids0, times0⟩

/-- A successful call with an empty record batch. -/
def emptyCall : SyncCall := ⟨⟨[], 9⟩, uids0, times0⟩

/-- C3 counterexample.  Across successful `SyncRecords` calls the stored
offset is not non-decreasing: a second call whose batch carries a smaller
last checkpoint rewrites the offset from `5` down to `3`.  Moreover a
successful call with an empty batch leaves the stored sync batch id at `1`
instead of committing the previous value plus one. -/
theorem syncRecords_sequence_counterexample :
    (runSyncCalls emptyState [callA]).mirrorJobs.map JobMetadata.offset = some 5 ∧
    (runSyncCalls emptyState [callA, callB]).mirrorJobs.map JobMetadata.offset = some 3 ∧
    (runSyncCalls emptyState [callA, emptyCall]).mirrorJobs.map JobMetadata.syncBatchID =
      some 1 :=
  ⟨rfl, rfl, rfl⟩

/-- C3 amended.  Across any sequence of successful `SyncRecords` calls with
non-empty batches, the stored sync batch id grows by exactly one per call;
and each such call stores the call's last checkpoint as the offset, so the
offset is non-decreasing whenever the checkpoints presented by successive
calls are non-decreasing. -/
theorem syncRecords_batchID_strictly_increasing :
    (∀ (s : DestState) (calls : List SyncCall), (∀ c ∈ calls, c.req.records ≠ []) →
      getLastSyncBatchID (runSyncCalls s calls) =
        getLastSyncBatchID s + (calls.length : Int)) ∧
    (∀ (s : DestState) (c : SyncCall), c.req.records ≠ [] →
      (syncStep s c).mirrorJobs.map JobMetadata.offset = some c.req.lastCheckPointID) := by
  constructor
  · intro s calls
    induction calls generalizing s with
    | nil => intro _; simp [runSyncCalls]
    | cons c cs ih =>
      intro hall
      have hstep := getLastSyncBatchID_syncStep s c (hall c (List.mem_cons_self c cs))
      have hrest := ih (syncStep s c) (fun c2 hc2 => hall c2 (List.mem_cons_of_mem c hc2))
      unfold runSyncCalls at hrest ⊢
      rw [List.foldl_cons, hrest, hstep]
      simp only [List.length_cons]
      push_cast
      ring
  · intro s c h
    unfold syncStep SyncRecords
    have hne : (c.req.records.mapIdx fun i r =>
        r.toRawRecord (c.uids i) (c.times i) (getLastSyncBatchID s + 1)).isEmpty = false := by
      rw [List.isEmpty_eq_false_iff_exists_mem]
      obtain ⟨r, rest, hr⟩ := List.exists_cons_of_ne_nil h
      exact ⟨r.toRawRecord (c.uids 0) (c.times 0) (getLastSyncBatchID s + 1),
        by rw [hr, List.mapIdx_cons]; exact List.mem_cons_self _ _⟩
    simp only [hne, Bool.false_eq_true, if_false]
    simp [updateSyncMetadata_offset]

/-- Witness for C3 amended: two non-empty calls into the empty state raise
the stored sync batch id from `0` to `2`. -/
theorem syncRecords_batchID_strictly_increasing_witness :
    getLastSyncBatchID (runSyncCalls emptyState [callA, callB]) =
      getLastSyncBatchID emptyState + (2 : Int) :=
  syncRecords_batchID_strictly_increasing.1 emptyState [callA, callB]
    (by
      intro c hc
      rcases List.mem_cons.mp hc with rfl | hc2
      · simp [callA]
      · rcases List.mem_cons.mp hc2 with rfl | hc3
        · simp [callB]
        · exact absurd hc3 (List.not_mem_nil c))

/-- The merge of one destination table changes only the normalized tables:
raw table and metadata row are untouched. -/
theorem applyMergeToTable_frame (idOf pkOf : String → String → String) (s : DestState)
    (destTable : String) (syncBatchID normalizeBatchID : Int) :
    (applyMergeToTable idOf pkOf s destTable syncBatchID normalizeBatchID).mirrorJobs =
        s.mirrorJobs ∧
    (applyMergeToTable idOf pkOf s destTable syncBatchID normalizeBatchID).rawTable =
        s.rawTable :=
  ⟨rfl, rfl⟩

/-- Folding successful merges over a list of destination tables changes only
the normalized tables. -/
theorem foldl_applyMergeToTable_frame (idOf pkOf : String → String → String)
    (syncBatchID normalizeBatchID : Int) (names : List String) (s : DestState) :
    (names.foldl
      (fun st destTable => applyMergeToTable idOf pkOf st destTable syncBatchID normalizeBatchID)
      s).mirrorJobs = s.mirrorJobs ∧
    (names.foldl
      (fun st destTable => applyMergeToTable idOf pkOf st destTable syncBatchID normalizeBatchID)
      s).rawTable = s.rawTable := by
  induction names generalizing s with
  | nil => exact ⟨rfl, rfl⟩
  | cons n ns ih =>
    rw [List.foldl_cons]
    exact ⟨(ih _).1.trans rfl, (ih _).2.trans rfl⟩

/-- A MERGE-statement sequence that succeeds changes only the normalized
tables: raw table and metadata row of the result equal the input's. -/
theorem foldlM_executeMergeStatement_frame (idOf pkOf : String → String → String)
    (syncBatchID normalizeBatchID : Int) :
    ∀ (names : List String) (s s1 : DestState),
      names.foldlM
        (fun st destTable => executeMergeStatement idOf pkOf st destTable
          syncBatchID normalizeBatchID) s = .ok s1 →
      s1.mirrorJobs = s.mirrorJobs ∧ s1.rawTable = s.rawTable := by
  intro names
  induction names with
  | nil =>
    intro s s1 h
    have h2 : (Except.ok s : Except Unit DestState) = .ok s1 := h
    cases h2
    exact ⟨rfl, rfl⟩
  | cons n ns ih =>
    intro s s1 h
    rw [List.foldlM_cons] at h
    unfold executeMergeStatement at h
    by_cases hg : mergeKeysDistinct idOf pkOf s n syncBatchID normalizeBatchID = true
    · rw [if_pos hg] at h
      have hstep := ih (applyMergeToTable idOf pkOf s n syncBatchID normalizeBatchID) s1 h
      exact ⟨hstep.1.trans rfl, hstep.2.trans rfl⟩
    · rw [if_neg hg] at h
      exact Except.noConfusion
        (show (Except.error () : Except Unit DestState) = .ok s1 from h)

/-- Merging source rows depends on the state only through the raw table. -/
theorem mergeSourceRows_congr (s1 s2 : DestState) (t : String)
    (syncBatchID normalizeBatchID : Int) (hraw : s1.rawTable = s2.rawTable) :
    mergeSourceRows s1 t syncBatchID normalizeBatchID =
      mergeSourceRows s2 t syncBatchID normalizeBatchID := by
  unfold mergeSourceRows rawRecordsInBatchWindow
  rw [hraw]

/-- The duplicate-join-key guard of one table reads only the raw table, so
a successful merge of another table does not change it. -/
theorem mergeKeysDistinct_congr (idOf pkOf : String → String → String)
    (s1 s2 : DestState) (destTable : String) (syncBatchID normalizeBatchID : Int)
    (hraw : s1.rawTable = s2.rawTable) :
    mergeKeysDistinct idOf pkOf s1 destTable syncBatchID normalizeBatchID =
      mergeKeysDistinct idOf pkOf s2 destTable syncBatchID normalizeBatchID := by
  unfold mergeKeysDistinct
  rw [mergeSourceRows_congr s1 s2 destTable syncBatchID normalizeBatchID hraw]

/-- When every destination table of the list passes the duplicate-join-key
guard, the MERGE-statement sequence succeeds and computes the fold of the
successful per-table merges. -/
theorem foldlM_executeMergeStatement_ok (idOf pkOf : String → String → String)
    (syncBatchID normalizeBatchID : Int) :
    ∀ (names : List String) (s : DestState),
      (∀ t' ∈ names, mergeKeysDistinct idOf pkOf s t' syncBatchID normalizeBatchID = true) →
      names.foldlM
        (fun st destTable => executeMergeStatement idOf pkOf st destTable
          syncBatchID normalizeBatchID) s =
      .ok (names.foldl
        (fun st destTable => applyMergeToTable idOf pkOf st destTable
          syncBatchID normalizeBatchID) s) := by
  intro names
  induction names with
  | nil => intro s _; rfl
  | cons n ns ih =>
    intro s hall
    rw [List.foldlM_cons, List.foldl_cons]
    unfold executeMergeStatement
    rw [if_pos (hall n (List.mem_cons_self n ns))]
    have hrest : ∀ t' ∈ ns, mergeKeysDistinct idOf pkOf
        (applyMergeToTable idOf pkOf s n syncBatchID normalizeBatchID) t'
        syncBatchID normalizeBatchID = true := by
      intro t' ht'
      rw [mergeKeysDistinct_congr idOf pkOf
        (applyMergeToTable idOf pkOf s n syncBatchID normalizeBatchID) s t'
        syncBatchID normalizeBatchID rfl]
      exact hall t' (List.mem_cons_of_mem n ht')
    exact ih (applyMergeToTable idOf pkOf s n syncBatchID normalizeBatchID) hrest

/-- A `SyncRecords` step preserves the metadata invariant. -/
theorem metadataInv_syncStep (s : DestState) (c : SyncCall) (hinv : MetadataInv s) :
    MetadataInv (syncStep s c) := by
  unfold syncStep SyncRecords
  by_cases he : (c.req.records.mapIdx fun i r =>
      r.toRawRecord (c.uids i) (c.times i) (getLastSyncBatchID s + 1)).isEmpty = true
  · simpa [he] using hinv
  · simp only [he, Bool.false_eq_true, if_false]
    intro m hm
    simp only [Option.some_inj] at hm
    cases hmj : s.mirrorJobs with
    | none =>
      rw [hmj] at hm
      simp only [updateSyncMetadata] at hm
      subst hm
      simp [getLastSyncBatchID, hmj]
    | some m0 =>
      rw [hmj] at hm
      have h0 := hinv m0 hmj
      simp only [updateSyncMetadata] at hm
      subst hm
      simp only [getLastSyncBatchID, hmj]
      omega

/-- A `NormalizeRecords` step preserves the metadata invariant, whether the
MERGEs commit or the transaction rolls back. -/
theorem metadataInv_normalize (idOf pkOf : String → String → String) (s : DestState)
    (hinv : MetadataInv s) : MetadataInv ((NormalizeRecords idOf pkOf s).1) := by
  unfold NormalizeRecords
  by_cases heq : getLastSyncBatchID s = getLastNormalizeBatchID s
  · simpa [heq] using hinv
  · simp only [heq, if_false]
    by_cases hex : jobMetadataExists s = true
    · simp only [hex, Bool.not_true, Bool.false_eq_true, if_false]
      cases hfold : (getDistinctTableNamesInBatch s (getLastSyncBatchID s)
          (getLastNormalizeBatchID s)).foldlM
          (fun st destTable => executeMergeStatement idOf pkOf st destTable
            (getLastSyncBatchID s) (getLastNormalizeBatchID s)) s with
      | error e => simpa [hfold] using hinv
      | ok s1 =>
        simp only [hfold]
        intro m hm
        rw [(foldlM_executeMergeStatement_frame idOf pkOf _ _ _ s s1 hfold).1] at hm
        cases hmj : s.mirrorJobs with
        | none => rw [hmj] at hm; simp at hm
        | some m0 =>
          rw [hmj] at hm
          simp [updateNormalizeMetadata] at hm
          subst hm
          simp [getLastSyncBatchID, hmj]
    · simpa [hex] using hinv

/-- C4.  The predicate `normalize_batch_id ≤ sync_batch_id` holds on the
first write of the metadata row (inserted with `normalize_batch_id = 0` and
a positive sync batch id) and is preserved by every operation that writes
the row: `SyncRecords` only raises `sync_batch_id`, and `NormalizeRecords`
sets `normalize_batch_id` to the `sync_batch_id` it read in the same run. -/
theorem metadata_invariant_preserved :
    (∀ (s : DestState) (c : SyncCall), s.mirrorJobs = none →
      ∀ m, (syncStep s c).mirrorJobs = some m → m.normalizeBatchID = 0) ∧
    (∀ (s : DestState) (ops : List DestOp), MetadataInv s →
      MetadataInv (ops.foldl applyOp s)) := by
  constructor
  · intro s c hnone m hm
    unfold syncStep SyncRecords at hm
    by_cases he : (c.req.records.mapIdx fun i r =>
        r.toRawRecord (c.uids i) (c.times i) (getLastSyncBatchID s + 1)).isEmpty = true
    · rw [if_pos he] at hm
      rw [hnone] at hm
      simp at hm
    · simp only [he, Bool.false_eq_true, if_false] at hm
      simp only [hnone, updateSyncMetadata, Option.some_inj] at hm
      subst hm
      rfl
  · intro s ops
    induction ops generalizing s with
    | nil => exact id
    | cons op rest ih =>
      intro hinv
      rw [List.foldl_cons]
      refine ih (applyOp s op) ?_
      cases op with
      | syncOp c => exact metadataInv_syncStep s c hinv
      | normalizeOp idOf pkOf => exact metadataInv_normalize idOf pkOf s hinv

/-- Primary-key extraction used by concrete runs: the whole data payload. -/
def pkData : String → String → String := fun _ d => d

/-- Witness for C4: after a sync call and a normalize run from the empty
state, the metadata row is `(offset 5, sync 1, normalize 1)` and satisfies
the invariant. -/
theorem metadata_invariant_preserved_witness :
    (⟨5, 1, 1⟩ : JobMetadata).normalizeBatchID ≤ (⟨5, 1, 1⟩ : JobMetadata).syncBatchID :=
  metadata_invariant_preserved.2 emptyState [.syncOp callA, .normalizeOp pkData pkData]
    (fun _ hm => nomatch hm) ⟨5, 1, 1⟩ (by rfl)

/-! Per-key semantics of the MERGE deduplication and join. -/

/-- Looking one key up after one MERGE source row has been applied: the row
rewrites exactly the entry of its own join key (to the row's payload, or to
absence for a delete) and leaves every other key alone. -/
theorem applyMergeRow_lookup (keyOf : String → String) (tbl : String → Option String)
    (r : SnowflakeRawRecord) (k : String) :
    applyMergeRow keyOf tbl r k =
      if keyOf r.data = k then (if r.recordType = 2 then none else some r.data)
      else tbl k := by
  unfold applyMergeRow
  by_cases hk : keyOf r.data = k
  · subst hk
    cases htk : tbl (keyOf r.data) <;> by_cases ht : r.recordType = 2 <;> simp [htk, ht]
  · have hk2 : ¬ k = keyOf r.data := fun h => hk h.symm
    cases htk : tbl (keyOf r.data) <;> by_cases ht : r.recordType = 2 <;>
      simp [htk, ht, hk2, hk]

/-- Looking one key up after the whole MERGE: the result is decided by the
last source row whose join key is that key, and is the prior table entry
when no source row touches the key. -/
theorem mergeForTable_lookup (keyOf : String → String) (tbl : String → Option String)
    (rows : List SnowflakeRawRecord) (k : String) :
    mergeForTable keyOf tbl rows k =
      match (rows.filter fun x => keyOf x.data == k).getLast? with
      | none => tbl k
      | some r => if r.recordType = 2 then none else some r.data := by
  induction rows generalizing tbl with
  | nil => rfl
  | cons r rest ih =>
    have hcons : mergeForTable keyOf tbl (r :: rest) =
        mergeForTable keyOf (applyMergeRow keyOf tbl r) rest := rfl
    rw [hcons, ih, List.filter_cons]
    by_cases hk : (keyOf r.data == k) = true
    · simp only [hk, if_true]
      cases hrest : (rest.filter fun x => keyOf x.data == k).getLast? with
      | none =>
        rw [List.getLast?_eq_none_iff.mp hrest]
        rw [applyMergeRow_lookup]
        have hkeq : keyOf r.data = k := (beq_iff_eq).mp hk
        simp [hkeq]
      | some rl =>
        have hne : (rest.filter fun x => keyOf x.data == k) ≠ [] := by
          intro hnil
          rw [hnil] at hrest
          exact Option.noConfusion hrest
        obtain ⟨b, bs, hb⟩ := List.exists_cons_of_ne_nil hne
        rw [hb, List.getLast?_cons_cons, ← hb, hrest]
    · simp only [hk, Bool.false_eq_true, if_false]
      cases hrest : (rest.filter fun x => keyOf x.data == k).getLast? with
      | none =>
        rw [applyMergeRow_lookup]
        have : ¬ keyOf r.data = k := by
          intro h
          exact hk ((beq_iff_eq).mpr h)
        simp [this]
      | some rl => rfl

/-- Membership in the rank-1 survivors: a row survives exactly when it is a
source row and no source row of its partition has a strictly greater
timestamp. -/
theorem mem_deduplicatedRows (pkT : String → String) (S : List SnowflakeRawRecord)
    (x : SnowflakeRawRecord) :
    x ∈ deduplicatedRows pkT S ↔
      x ∈ S ∧ ∀ y ∈ S, pkT y.data = pkT x.data → y.timestamp ≤ x.timestamp := by
  unfold deduplicatedRows
  rw [List.mem_filter, List.all_eq_true]
  apply and_congr_right
  intro _
  constructor
  · intro h y hy hpk
    have hy2 := h y hy
    rw [Bool.or_eq_true, bne_iff_ne, decide_eq_true_iff] at hy2
    rcases hy2 with hne2 | hle
    · exact absurd hpk hne2
    · exact hle
  · intro h y hy
    rw [Bool.or_eq_true, bne_iff_ne, decide_eq_true_iff]
    by_cases hpk : pkT y.data = pkT x.data
    · exact Or.inr (h y hy hpk)
    · exact Or.inl hpk

/-- A duplicate-free key list passes the `nodupKeys` check. -/
theorem nodupKeys_of_nodup : ∀ (l : List String), l.Nodup → nodupKeys l = true := by
  intro l h
  induction l with
  | nil => rfl
  | cons a as ih =>
    rw [List.nodup_cons] at h
    show (!as.contains a && nodupKeys as) = true
    rw [Bool.and_eq_true]
    refine ⟨?_, ih h.2⟩
    cases hc : as.contains a with
    | false => rfl
    | true =>
      obtain ⟨b, hb, hab⟩ := List.contains_iff_exists_mem_beq.mp hc
      exact absurd (by rw [(beq_iff_eq).mp hab]; exact hb) h.1

/-- In a list whose elements are all equal to `r`, the last element is `r`. -/
theorem getLast?_of_all_eq {α : Type} (l : List α) (r : α) (hne : l ≠ [])
    (hall : ∀ x ∈ l, x = r) : l.getLast? = some r := by
  induction l with
  | nil => exact absurd rfl hne
  | cons a as ih =>
    rcases as with _ | ⟨b, t⟩
    · rw [hall a (List.mem_cons_self a [])]
      rfl
    · rw [List.getLast?_cons_cons]
      exact ih (List.cons_ne_nil b t) (fun x hx => hall x (List.mem_cons_of_mem a hx))

/-- Survivor characterisation of the rank-1 deduplication, under unique
maximality and a join column that carries the primary-key value: if `r` is
in the source rows, every row of its key has timestamp at most `r`'s, and
`r` is the only row of its key achieving that timestamp, then the rank-1
survivors whose join key is `k` are non-empty and all equal to `r`. -/
theorem deduplicatedRows_survivors (pkT idT : String → String)
    (S : List SnowflakeRawRecord) (r : SnowflakeRawRecord) (k : String)
    (hr : r ∈ S) (hk : pkT r.data = k)
    (hid : ∀ x ∈ S, idT x.data = pkT x.data)
    (hmax : ∀ x ∈ S, pkT x.data = k → x.timestamp ≤ r.timestamp)
    (huniq : ∀ x ∈ S, pkT x.data = k → x.timestamp = r.timestamp → x = r) :
    ((deduplicatedRows pkT S).filter fun x => idT x.data == k) ≠ [] ∧
    ∀ x ∈ (deduplicatedRows pkT S).filter fun x => idT x.data == k, x = r := by
  constructor
  · apply List.ne_nil_of_mem (a := r)
    rw [List.mem_filter]
    refine ⟨?_, (beq_iff_eq).mpr ((hid r hr).trans hk)⟩
    unfold deduplicatedRows
    rw [List.mem_filter]
    refine ⟨hr, ?_⟩
    rw [List.all_eq_true]
    intro y hy
    by_cases hyk : pkT y.data = pkT r.data
    · have := hmax y hy (hyk.trans hk)
      simp [this]
    · simp [bne_iff_ne, hyk]
  · intro x hx
    rw [List.mem_filter] at hx
    obtain ⟨hxd, hxk⟩ := hx
    unfold deduplicatedRows at hxd
    rw [List.mem_filter] at hxd
    obtain ⟨hxS, hxall⟩ := hxd
    have hxk2 : pkT x.data = k := by
      rw [← hid x hxS]
      exact (beq_iff_eq).mp hxk
    rw [List.all_eq_true] at hxall
    have hrts := hxall r hr
    rw [Bool.or_eq_true, bne_iff_ne, decide_eq_true_iff] at hrts
    have hrle : r.timestamp ≤ x.timestamp := by
      rcases hrts with hne2 | hle
      · exact absurd (hk.trans hxk2.symm) hne2
      · exact hle
    exact huniq x hxS hxk2 (le_antisymm (hmax x hxS hxk2) hrle)

/-- Tables not named by the per-table MERGE loop are unchanged by it. -/
theorem foldl_merge_tables_not_mem (idOf pkOf : String → String → String)
    (syncBatchID normalizeBatchID : Int) (names : List String) (s : DestState)
    (t : String) (ht : t ∉ names) :
    (names.foldl
      (fun st n => applyMergeToTable idOf pkOf st n syncBatchID normalizeBatchID)
      s).tables t = s.tables t := by
  induction names generalizing s with
  | nil => rfl
  | cons n ns ih =>
    rw [List.foldl_cons]
    have htn : t ≠ n := fun h => ht (h ▸ List.mem_cons_self n ns)
    rw [ih _ (fun h => ht (List.mem_cons_of_mem n h))]
    simp [applyMergeToTable, htn]

/-- Value of one destination table after the per-table MERGE loop over
distinct table names: the table named `t` receives exactly the MERGE of the
rank-1 deduplicated batch-window rows of `t`, joined on the `ID` column. -/
theorem foldl_merge_tables_mem (idOf pkOf : String → String → String)
    (syncBatchID normalizeBatchID : Int) (names : List String) (s : DestState)
    (t : String) (hnodup : names.Nodup) (ht : t ∈ names) :
    (names.foldl
      (fun st n => applyMergeToTable idOf pkOf st n syncBatchID normalizeBatchID)
      s).tables t =
      mergeForTable (idOf t) (s.tables t)
        (deduplicatedRows (pkOf t) (mergeSourceRows s t syncBatchID normalizeBatchID)) := by
  induction names generalizing s with
  | nil => exact absurd ht (List.not_mem_nil t)
  | cons n ns ih =>
    rw [List.foldl_cons]
    rcases List.mem_cons.mp ht with rfl | htns
    · have htns : t ∉ ns := (List.nodup_cons.mp hnodup).1
      rw [foldl_merge_tables_not_mem idOf pkOf syncBatchID normalizeBatchID ns _ t htns]
      simp [applyMergeToTable]
    · have htn : t ≠ n := by
        intro h
        exact (List.nodup_cons.mp hnodup).1 (h ▸ htns)
      rw [ih _ (List.nodup_cons.mp hnodup).2 htns]
      have hraw : (applyMergeToTable idOf pkOf s n syncBatchID normalizeBatchID).rawTable =
          s.rawTable := rfl
      rw [mergeSourceRows_congr _ s t _ _ hraw]
      have htbl : (applyMergeToTable idOf pkOf s n syncBatchID normalizeBatchID).tables t =
          s.tables t := by simp [applyMergeToTable, htn]
      rw [htbl]

/-- Rows and payload used by the C1 counterexample: two events for the same
primary key `"1"` (extracted as the first character of the data payload)
that share the timestamp `100` but have different uids. -/
def tiePk : String → String → String := fun _ d => d.take 1

/-- The two timestamp-tied raw rows. -/
def tieRows : List SnowflakeRawRecord :=
  [⟨"uid-a", 100, "PUBLIC.T1", "1a", 0, "", 1⟩,
   ⟨"uid-b", 100, "PUBLIC.T1", "1b", 1, "", 1⟩]

/-- C1 counterexample.  The deduplication step is
`RANK() OVER (PARTITION BY pk ORDER BY _PEERDB_TIMESTAMP DESC) = 1` with no
tiebreaker on `uid`: for two events of the same primary key sharing a
timestamp, both rows have rank 1 and both survive, so the step does not keep
only one latest event per primary key. -/
theorem deduplication_tie_keeps_two :
    ((deduplicatedRows (tiePk "PUBLIC.T1") tieRows).filter
      fun x => tiePk "PUBLIC.T1" x.data == "1").length = 2 := by
  decide

/-- C1 amended.  The dedup step keeps, per primary key, every event of
maximal timestamp (no uid tiebreaker), and the MERGE joins on the hardcoded
`ID` column, not the primary key.  Provided that, for every destination
table of the batch window, the window rows are duplicate-free, the `ID`
join column carries the primary-key value, and timestamps are tie-free per
primary key, `NormalizeRecords` commits and the destination row for each
touched key equals the record of greatest timestamp for that key — absent
when that record has `record_type = 2`. -/
theorem normalizeRecords_latest_per_key (idOf pkOf : String → String → String)
    (s : DestState) (t k : String) (r : SnowflakeRawRecord)
    (hne : getLastSyncBatchID s ≠ getLastNormalizeBatchID s)
    (hex : jobMetadataExists s = true)
    (hwin : ∀ t' ∈ getDistinctTableNamesInBatch s (getLastSyncBatchID s)
        (getLastNormalizeBatchID s),
      (mergeSourceRows s t' (getLastSyncBatchID s) (getLastNormalizeBatchID s)).Nodup ∧
      (∀ x ∈ mergeSourceRows s t' (getLastSyncBatchID s) (getLastNormalizeBatchID s),
        idOf t' x.data = pkOf t' x.data) ∧
      (∀ x ∈ mergeSourceRows s t' (getLastSyncBatchID s) (getLastNormalizeBatchID s),
        ∀ y ∈ mergeSourceRows s t' (getLastSyncBatchID s) (getLastNormalizeBatchID s),
          pkOf t' x.data = pkOf t' y.data → x.timestamp = y.timestamp → x = y))
    (hr : r ∈ mergeSourceRows s t (getLastSyncBatchID s) (getLastNormalizeBatchID s))
    (hk : pkOf t r.data = k)
    (hmax : ∀ x ∈ mergeSourceRows s t (getLastSyncBatchID s) (getLastNormalizeBatchID s),
      pkOf t x.data = k → x.timestamp ≤ r.timestamp) :
    (NormalizeRecords idOf pkOf s).1.tables t k =
      if r.recordType = 2 then none else some r.data := by
  have htmem : t ∈ getDistinctTableNamesInBatch s (getLastSyncBatchID s)
      (getLastNormalizeBatchID s) := by
    unfold getDistinctTableNamesInBatch
    rw [List.mem_dedup]
    have hr2 := hr
    unfold mergeSourceRows at hr2
    rw [List.mem_filter] at hr2
    exact List.mem_map.mpr ⟨r, hr2.1, (beq_iff_eq).mp hr2.2⟩
  have hnd : (getDistinctTableNamesInBatch s (getLastSyncBatchID s)
      (getLastNormalizeBatchID s)).Nodup := by
    unfold getDistinctTableNamesInBatch
    exact List.nodup_dedup _
  have hguard : ∀ t' ∈ getDistinctTableNamesInBatch s (getLastSyncBatchID s)
      (getLastNormalizeBatchID s),
      mergeKeysDistinct idOf pkOf s t' (getLastSyncBatchID s)
        (getLastNormalizeBatchID s) = true := by
    intro t' ht'
    obtain ⟨hnd', hid', hties'⟩ := hwin t' ht'
    unfold mergeKeysDistinct
    apply nodupKeys_of_nodup
    apply List.Nodup.map_on
    · intro x hx y hy hxy
      rw [mem_deduplicatedRows] at hx hy
      obtain ⟨hxS, hxmax⟩ := hx
      obtain ⟨hyS, hymax⟩ := hy
      have hpk : pkOf t' x.data = pkOf t' y.data := by
        rw [← hid' x hxS, ← hid' y hyS]
        exact hxy
      exact hties' x hxS y hyS hpk
        (le_antisymm (hymax x hxS hpk) (hxmax y hyS hpk.symm))
    · unfold deduplicatedRows
      exact hnd'.filter _
  unfold NormalizeRecords
  simp only [hne, if_false, hex, Bool.not_true, Bool.false_eq_true]
  rw [foldlM_executeMergeStatement_ok idOf pkOf (getLastSyncBatchID s)
    (getLastNormalizeBatchID s) _ s hguard]
  simp only
  rw [foldl_merge_tables_mem idOf pkOf _ _ _ s t hnd htmem, mergeForTable_lookup]
  obtain ⟨hid_t, hties_t⟩ := (hwin t htmem).2
  have huniq : ∀ x ∈ mergeSourceRows s t (getLastSyncBatchID s)
      (getLastNormalizeBatchID s), pkOf t x.data = k →
      x.timestamp = r.timestamp → x = r := by
    intro x hx hpk hts
    exact hties_t x hx r hr (by rw [hpk, hk]) hts
  obtain ⟨hsurv_ne, hsurv_eq⟩ :=
    deduplicatedRows_survivors (pkOf t) (idOf t) _ r k hr hk hid_t hmax huniq
  rw [getLast?_of_all_eq _ r hsurv_ne hsurv_eq]

/-- Concrete per-key scenario: an insert at timestamp `1` followed by an
update at timestamp `2` for primary key `"1"` in one batch window. -/
def lastWriterState : DestState :=
  { mirrorJobs := some ⟨5, 1, 0⟩,
    rawTable :=
      [⟨"u1", 1, "PUBLIC.T1", "1a", 0, "", 1⟩,
       ⟨"u2", 2, "PUBLIC.T1", "1b", 1, "", 1⟩],
    tables := fun _ _ => none }

/-- The latest row of the concrete scenario. -/
def lastWriterRow : SnowflakeRawRecord := ⟨"u2", 2, "PUBLIC.T1", "1b", 1, "", 1⟩

/-- Witness for C1 amended: in the concrete scenario (join column extraction
and primary-key extraction agree), the destination row for key `"1"` after
`NormalizeRecords` is the payload of the latest (timestamp `2`) update. -/
theorem normalizeRecords_latest_per_key_witness :
    (NormalizeRecords tiePk tiePk lastWriterState).1.tables "PUBLIC.T1" "1" =
      some "1b" := by
  have h := normalizeRecords_latest_per_key tiePk tiePk lastWriterState "PUBLIC.T1" "1"
    lastWriterRow (by decide) (by decide) (by decide) (by decide)
    (by decide) (by decide)
  simpa using h

/-! Text of the generated MERGE statement (`mergeStatementSQL` filled in by
`generateAndExecuteMergeStatement`). -/

/-- `toVariantColumnName = "VAR_COLS"`. -/
def toVariantColumnName : String := "VAR_COLS"

/-- Modelled from the spec: the generic column type constants of the `model`
package (`model.ColumnTypeBoolean`, …) are not part of the sources at hand;
their concrete string values do not matter for any claim. -/
def ColumnTypeBoolean : String := "bool"

/-- Modelled from the spec: generic 32-bit integer column type. -/
def ColumnTypeInt32 : String := "int32"

/-- Modelled from the spec: generic 64-bit integer column type. -/
def ColumnTypeInt64 : String := "int64"

/-- Modelled from the spec: generic 32-bit float column type. -/
def ColumnTypeFloat32 : String := "float32"

/-- Modelled from the spec: generic 64-bit float column type. -/
def ColumnTypeFloat64 : String := "float64"

/-- Modelled from the spec: generic string column type. -/
def ColumnTypeString : String := "string"

/-- Modelled from the spec: generic timestamp column type. -/
def ColumnTypeTimestamp : String := "timestamp"

/-- The generic→Snowflake type switch
(`getSnowflakeTypeForGenericColumnType`); unknown types map to `STRING`. -/
def getSnowflakeTypeForGenericColumnType (colType : String) : String :=
  if colType = ColumnTypeBoolean then "BOOLEAN"
  else if colType = ColumnTypeInt32 then "INT"
  else if colType = ColumnTypeInt64 then "INT"
  else if colType = ColumnTypeFloat32 then "FLOAT"
  else if colType = ColumnTypeFloat64 then "FLOAT"
  else if colType = ColumnTypeString then "STRING"
  else if colType = ColumnTypeTimestamp then "TIMESTAMP_NTZ"
  else "STRING"

/-- `protos.TableSchema` as used by the Snowflake connector: an ordered
column-name→generic-type mapping and the (single) primary-key column name. -/
structure TableSchema where
  tableIdentifier : String
  columns : List (String × String)
  primaryKeyColumn : String
  deriving DecidableEq, Repr

/-- Embedding of `strings.ToUpper` (identifiers here are ASCII). -/
def asciiUpper (s : String) : String :=
  String.mk (s.data.map Char.toUpper)

/-- `strings.TrimSuffix`: drop the suffix when present. -/
def trimSuffix (s sfx : String) : String :=
  if sfx.data.isSuffixOf s.data then s.dropRight sfx.length else s

/-- The upper-cased column names of the schema (`columnNames` in
`generateAndExecuteMergeStatement`). -/
def columnNamesUpper (schema : TableSchema) : List String :=
  schema.columns.map fun c => asciiUpper c.1

/-- `flattenedCastsSQL`: one `CAST(VAR_COLS:col AS type) AS col` per column,
comma separated. -/
def flattenedCastsSQL (schema : TableSchema) : String :=
  trimSuffix (String.join (schema.columns.map fun c =>
    "CAST(" ++ toVariantColumnName ++ ":" ++ c.1 ++ " AS " ++
      getSnowflakeTypeForGenericColumnType c.2 ++ ") AS " ++ c.1 ++ ",")) ","

/-- `insertColumnsSQL`: the comma-separated upper-cased column names. -/
def insertColumnsSQL (schema : TableSchema) : String :=
  trimSuffix (String.intercalate "," (columnNamesUpper schema)) ","

/-- `insertValuesSQL`: `SOURCE.col` per column, comma separated. -/
def insertValuesSQL (schema : TableSchema) : String :=
  trimSuffix (String.join ((columnNamesUpper schema).map fun c =>
    "SOURCE." ++ c ++ ",")) ","

/-- `updateValuesSQL`: `col=SOURCE.col` per column, comma separated. -/
def updateValuesSQL (schema : TableSchema) : String :=
  trimSuffix (String.join ((columnNamesUpper schema).map fun c =>
    c ++ "=SOURCE." ++ c ++ ",")) ","

/-- The `mergeStatementSQL` template of `snowflake.go` with the arguments of
`generateAndExecuteMergeStatement` interpolated: destination table, variant
column alias, raw table, batch window bounds, flattened casts, the
upper-cased primary-key column (used in the `PARTITION BY` of the rank
step), and the insert/update column lists.  The `ON` join clause is the
literal `TARGET.ID=SOURCE.ID` of the template. -/
def generateMergeStatement (destinationTableIdentifier rawTableIdentifier : String)
    (syncBatchID normalizeBatchID : Int) (schema : TableSchema) : String :=
  "MERGE INTO " ++ destinationTableIdentifier ++
  " TARGET USING (WITH VARIANT_CONVERTED AS (SELECT _PEERDB_UID,_PEERDB_TIMESTAMP,\n\t\tTO_VARIANT(PARSE_JSON(_PEERDB_DATA)) " ++
  toVariantColumnName ++
  ",_PEERDB_RECORD_TYPE,_PEERDB_MATCH_DATA,_PEERDB_BATCH_ID FROM\n\t\t _PEERDB_INTERNAL." ++
  rawTableIdentifier ++
  " WHERE _PEERDB_BATCH_ID > " ++ toString normalizeBatchID ++
  " AND _PEERDB_BATCH_ID <= " ++ toString syncBatchID ++
  " AND\n\t\t _PEERDB_DESTINATION_TABLE_NAME = ?), FLATTENED AS\n\t\t (SELECT _PEERDB_UID,_PEERDB_TIMESTAMP,_PEERDB_RECORD_TYPE,_PEERDB_MATCH_DATA,_PEERDB_BATCH_ID," ++
  flattenedCastsSQL schema ++
  "\n\t\t FROM VARIANT_CONVERTED), DEDUPLICATED_FLATTENED AS (SELECT RANKED.* FROM\n\t\t " ++
  "(SELECT RANK() OVER (PARTITION BY " ++ asciiUpper schema.primaryKeyColumn ++
  " ORDER BY _PEERDB_TIMESTAMP DESC) AS RANK,* FROM FLATTENED)" ++
  "\n\t\t RANKED WHERE RANK=1)\n\t\t SELECT * FROM DEDUPLICATED_FLATTENED)" ++
  " SOURCE ON TARGET.ID=SOURCE.ID" ++
  "\n\t\t WHEN NOT MATCHED AND (SOURCE._PEERDB_RECORD_TYPE != 2) THEN INSERT (" ++
  insertColumnsSQL schema ++ ") VALUES(" ++ insertValuesSQL schema ++ ")" ++
  "\n\t\t WHEN MATCHED AND (SOURCE._PEERDB_RECORD_TYPE != 2) THEN UPDATE SET " ++
  updateValuesSQL schema ++
  "\n\t\t WHEN MATCHED AND (SOURCE._PEERDB_RECORD_TYPE = 2) THEN DELETE"

/-- Whether the second character list starts with the first. -/
def beginsWithChars : List Char → List Char → Bool
  | [], _ => true
  | _ :: _, [] => false
  | p :: ps, c :: cs => p == c && beginsWithChars ps cs

/-- Whether the first character list occurs inside the second. -/
def containsSubChars : List Char → List Char → Bool
  | pat, [] => pat.isEmpty
  | pat, c :: cs => beginsWithChars pat (c :: cs) || containsSubChars pat cs

/-- Substring test on strings. -/
def strContainsSub (s pat : String) : Bool :=
  containsSubChars pat.data s.data

/-- Schema of the C2 counterexample: primary key `code`, which is not named
`ID`. -/
def schemaCode : TableSchema :=
  ⟨"PUBLIC.T2", [("code", ColumnTypeInt64), ("v", ColumnTypeString)], "code"⟩

set_option maxRecDepth 40000 in
/-- C2 counterexample.  For a table whose primary key is `code`, the
generated MERGE statement does not join on the primary-key column: it
contains no `ON TARGET.CODE=SOURCE.CODE`, and instead carries the hardcoded
join `ON TARGET.ID=SOURCE.ID` of the template. -/
theorem merge_statement_join_not_on_pk :
    strContainsSub (generateMergeStatement "PUBLIC.T2" "_PEERDB_RAW_job" 1 0 schemaCode)
      "ON TARGET.CODE=SOURCE.CODE" = false ∧
    strContainsSub (generateMergeStatement "PUBLIC.T2" "_PEERDB_RAW_job" 1 0 schemaCode)
      "ON TARGET.ID=SOURCE.ID" = true := by
  constructor <;> rfl

/-- C2 amended.  For every destination table, the generated MERGE statement
joins target and source on the literal column `ID` (the table's primary key
is used only in the `PARTITION BY` of the dedup rank step), and after the
join the statement consists of exactly the three branches: not matched and
`record_type ≠ 2` inserts all columns, matched and `record_type ≠ 2` updates
all columns, matched and `record_type = 2` deletes. -/
theorem merge_statement_on_id_three_branches (destinationTableIdentifier
    rawTableIdentifier : String) (syncBatchID normalizeBatchID : Int)
    (schema : TableSchema) :
    ∃ sourceHead dedupClose : String,
      generateMergeStatement destinationTableIdentifier rawTableIdentifier
          syncBatchID normalizeBatchID schema =
        sourceHead ++
        "(SELECT RANK() OVER (PARTITION BY " ++ asciiUpper schema.primaryKeyColumn ++
        " ORDER BY _PEERDB_TIMESTAMP DESC) AS RANK,* FROM FLATTENED)" ++
        dedupClose ++
        " SOURCE ON TARGET.ID=SOURCE.ID" ++
        "\n\t\t WHEN NOT MATCHED AND (SOURCE._PEERDB_RECORD_TYPE != 2) THEN INSERT (" ++
        insertColumnsSQL schema ++ ") VALUES(" ++ insertValuesSQL schema ++ ")" ++
        "\n\t\t WHEN MATCHED AND (SOURCE._PEERDB_RECORD_TYPE != 2) THEN UPDATE SET " ++
        updateValuesSQL schema ++
        "\n\t\t WHEN MATCHED AND (SOURCE._PEERDB_RECORD_TYPE = 2) THEN DELETE" :=
  ⟨"MERGE INTO " ++ destinationTableIdentifier ++
    " TARGET USING (WITH VARIANT_CONVERTED AS (SELECT _PEERDB_UID,_PEERDB_TIMESTAMP,\n\t\tTO_VARIANT(PARSE_JSON(_PEERDB_DATA)) " ++
    toVariantColumnName ++
    ",_PEERDB_RECORD_TYPE,_PEERDB_MATCH_DATA,_PEERDB_BATCH_ID FROM\n\t\t _PEERDB_INTERNAL." ++
    rawTableIdentifier ++
    " WHERE _PEERDB_BATCH_ID > " ++ toString normalizeBatchID ++
    " AND _PEERDB_BATCH_ID <= " ++ toString syncBatchID ++
    " AND\n\t\t _PEERDB_DESTINATION_TABLE_NAME = ?), FLATTENED AS\n\t\t (SELECT _PEERDB_UID,_PEERDB_TIMESTAMP,_PEERDB_RECORD_TYPE,_PEERDB_MATCH_DATA,_PEERDB_BATCH_ID," ++
    flattenedCastsSQL schema ++
    "\n\t\t FROM VARIANT_CONVERTED), DEDUPLICATED_FLATTENED AS (SELECT RANKED.* FROM\n\t\t ",
   "\n\t\t RANKED WHERE RANK=1)\n\t\t SELECT * FROM DEDUPLICATED_FLATTENED)",
   rfl⟩

end PeerDB
